import Mathlib

/-!
Verification development for the exam-paper conversion pipeline: a shallow
embedding of the content segmenter (`core/content_parser.py`), the LaTeX to
HWP equation-script transpiler (`core/latex_to_hwpeq.py`) and the equation
size estimator (`core/hwpx_writer.py`), together with theorems about the
properties stated in the specification.  Python strings are embedded as
`List Char`; regex-based rewriting passes are realised as explicit scanners
that reproduce the left-to-right, leftmost-match semantics of `re.sub`.
-/

set_option maxHeartbeats 1000000
set_option maxRecDepth 100000

namespace ExamPaper

/-- Whitespace characters recognised by Python's default `str.strip` and by
the regex class `\s` (ASCII range, which is all this code base produces). -/
def pySpace (c : Char) : Bool :=
  c = ' ' || c = '\t' || c = '\n' || c = '\r' || c = '\x0b' || c = '\x0c'

/-- Drops the maximal whitespace suffix of a character list. -/
def dropTrailingWs : List Char → List Char
  | [] => []
  | c :: rest =>
    match dropTrailingWs rest with
    | [] => if pySpace c then [] else [c]
    | r => c :: r

/-- Python `str.strip()` on a character list. -/
def pyStrip (l : List Char) : List Char := dropTrailingWs (l.dropWhile pySpace)

/-- Python `str.strip()` on a `String`. -/
def pyStripStr (s : String) : String := ⟨pyStrip s.data⟩

/-- Python `str.strip("$")` on a character list. -/
def pyStripDollar (l : List Char) : List Char :=
  ((((l.dropWhile (fun c => c = '$')).reverse).dropWhile (fun c => c = '$')).reverse)

/-- Python `s.replace(pat, repl)`: leftmost, non-overlapping replacement.
The fuel argument (instantiated with the length of the scanned list, which
every step consumes at least one element of) makes the definition
structurally recursive so that it reduces inside the kernel. -/
def replaceSubGo (pat repl : List Char) : Nat → List Char → List Char
  | _, [] => []
  | 0, l => l
  | fuel+1, c :: rest =>
    if pat ≠ [] && pat.isPrefixOf (c :: rest) then
      repl ++ replaceSubGo pat repl fuel (List.drop pat.length (c :: rest))
    else c :: replaceSubGo pat repl fuel rest

/-- Python `s.replace(pat, repl)` on character lists. -/
def replaceSub (pat repl l : List Char) : List Char := replaceSubGo pat repl l.length l

/-- Python substring test `pat in s`. -/
def containsSub (pat : List Char) : List Char → Bool
  | [] => pat.isEmpty
  | c :: rest => pat.isPrefixOf (c :: rest) || containsSub pat rest

/-- Splits at the first occurrence of `pat`: returns the text before the
occurrence and the text after it, or `none` when `pat` does not occur. -/
def findSub (pat : List Char) : List Char → Option (List Char × List Char)
  | [] => if pat.isEmpty then some ([], []) else none
  | c :: rest =>
    if pat.isPrefixOf (c :: rest) then some ([], List.drop pat.length (c :: rest))
    else (findSub pat rest).map (fun p => (c :: p.1, p.2))

/-- Python `s.split(sep)` for a non-empty separator (fuelled like
`replaceSubGo`). -/
def splitOnSubGo (pat : List Char) : Nat → List Char → List (List Char)
  | _, [] => [[]]
  | 0, l => [l]
  | fuel+1, c :: rest =>
    if pat ≠ [] && pat.isPrefixOf (c :: rest) then
      [] :: splitOnSubGo pat fuel (List.drop pat.length (c :: rest))
    else
      match splitOnSubGo pat fuel rest with
      | [] => [[c]]
      | p :: ps => (c :: p) :: ps

/-- Python `s.split(sep)` on character lists. -/
def splitOnSub (pat l : List Char) : List (List Char) := splitOnSubGo pat l.length l

/-! ## Data model: `models/exam_document.py` -/

/-- The `ContentType` enum of `models/exam_document.py`.  Its members are
exactly `TEXT`, `EQUATION`, `EQUATION_BLOCK` and `IMAGE`; in particular there
is no `TABLE` member, although `core/content_parser.py` refers to one. -/
inductive ContentType
  | TEXT
  | EQUATION
  | EQUATION_BLOCK
  | IMAGE
deriving DecidableEq

/-- The `ContentBlock` dataclass of `models/exam_document.py`.  Its fields
are exactly `type`, `value` and `hwp_equation`; there is no `underline` and
no `rows` field, although `core/content_parser.py` passes such keyword
arguments. -/
structure ContentBlock where
  type : ContentType
  value : String
  hwp_equation : Option String := none
deriving DecidableEq

/-! ## Bracket-aware comma splitter: `_split_at_top_level_commas`
(`core/content_parser.py` lines 168-184) -/

/-- Test `ch in "({["` of the splitter. -/
def bracketOpen (c : Char) : Bool := c = '(' || c = '\x7b' || c = '['

/-- Test `ch in ")}]"` of the splitter. -/
def bracketClose (c : Char) : Bool := c = ')' || c = '\x7d' || c = ']'

/-- One update of the splitter's depth counter: opening brackets increment
it, closing brackets decrement it clamped at zero (`depth = max(0, depth - 1)`
in the source), all other characters leave it unchanged. -/
def depthStep (depth : Int) (c : Char) : Int :=
  if bracketOpen c then depth + 1
  else if bracketClose c then max 0 (depth - 1)
  else depth

/-- The loop of `_split_at_top_level_commas`: `current` is the accumulator of
the part being built (kept reversed), a comma splits only at depth 0, and
every non-splitting character is appended to `current`. -/
def splitGo (depth : Int) (current : List Char) : List Char → List (List Char)
  | [] => [current.reverse]
  | c :: rest =>
    if bracketOpen c then splitGo (depthStep depth c) (c :: current) rest
    else if bracketClose c then splitGo (depthStep depth c) (c :: current) rest
    else if c = ',' && depth = 0 then current.reverse :: splitGo depth [] rest
    else splitGo depth (c :: current) rest

/-- `_split_at_top_level_commas(s)`. -/
def splitAtTopLevelCommas (s : String) : List String :=
  (splitGo 0 [] s.data).map fun l => ⟨l⟩

/-- Joins parts with a single `","`, the inverse operation of the splitter. -/
def joinCommas : List (List Char) → List Char
  | [] => []
  | [p] => p
  | p :: q :: rest => p ++ ',' :: joinCommas (q :: rest)

/-- `joinCommas` on strings. -/
def joinWithComma (parts : List String) : String := ⟨joinCommas (parts.map String.data)⟩

/-- Bracket-count delta of a character (all three bracket kinds share one
counter in the splitter). -/
def bracketDelta (c : Char) : Int :=
  if bracketOpen c then 1 else if bracketClose c then -1 else 0

/-- Runs the (unclamped) bracket counter from `d` over `l`; `none` when the
counter would become negative, otherwise the final count. -/
def balTo : Int → List Char → Option Int
  | d, [] => some d
  | d, c :: rest =>
    let d' := d + bracketDelta c
    if d' < 0 then none else balTo d' rest

/-- A character list is balanced from depth `d` when the running bracket
counter never goes negative and ends at zero. -/
def balancedChk (d : Int) (l : List Char) : Bool :=
  match balTo d l with
  | some e => e = 0
  | none => false

/-! ## Comma-separated equation pass: `_split_comma_equations`
(`core/content_parser.py` lines 143-165) -/

/-- The interleaving built by the loop of `_split_comma_equations`: the first
valid part becomes an Equation block, every later part is preceded by a
PlainText block holding the literal `", "`. -/
def interleaveEquations : List String → List ContentBlock
  | [] => []
  | p :: rest =>
    ContentBlock.mk ContentType.EQUATION p none ::
      rest.flatMap fun q =>
        [ContentBlock.mk ContentType.TEXT ", " none,
         ContentBlock.mk ContentType.EQUATION q none]

/-- `_split_comma_equations(blocks)`: an Equation block whose value contains a
comma is split at its top-level commas into stripped non-empty parts; when
that yields more than one part the block is replaced by the interleaving,
otherwise (and for every other block) the block is kept unchanged. -/
def splitCommaEquations : List ContentBlock → List ContentBlock
  | [] => []
  | block :: rest =>
    (if block.type = ContentType.EQUATION && block.value.data.contains ',' then
      let parts := splitAtTopLevelCommas block.value
      let valid := (parts.map pyStripStr).filter fun p => p ≠ ""
      if 1 < valid.length then interleaveEquations valid
      else [block]
    else [block]) ++ splitCommaEquations rest

/-- Per-block clause of the comma-split pass exactly as the specification
words it: an Equation block whose top-level comma split yields at least two
non-empty trimmed parts is replaced by Equation parts joined by literal
`", "` text blocks, and every other block is kept unchanged. -/
def specCommaSplitBlock (block : ContentBlock) : List ContentBlock :=
  let valid := ((splitAtTopLevelCommas block.value).map pyStripStr).filter fun p => p ≠ ""
  if block.type = ContentType.EQUATION ∧ 2 ≤ valid.length then interleaveEquations valid
  else [block]

/-! ## Underline-markup pass: `_split_underline_markup`
(`core/content_parser.py` lines 270-298) -/

/-- Python runtime errors that the embedded code can raise. -/
inductive PyErr
  | attributeError
  | typeError
deriving DecidableEq

/-- Lazy body of the regex `__(.+?)__` after an opening `__`: the shortest
non-empty newline-free run followed by a closing `__`.  Returns the run and
the text after the closing marker. -/
def lazyInner : List Char → Option (List Char × List Char)
  | [] => none
  | c :: rest =>
    if c = '\n' then none
    else if ['_', '_'].isPrefixOf rest then some ([c], rest.drop 2)
    else (lazyInner rest).map fun p => (c :: p.1, p.2)

/-- First match of `__(.+?)__` in a character list: the text before the
match, the emphasised body, and the text after the match. -/
def findUnderlineMatch : List Char → Option (List Char × List Char × List Char)
  | [] => none
  | c :: rest =>
    match
      (if ['_', '_'].isPrefixOf (c :: rest) then
        (lazyInner ((c :: rest).drop 2)).map fun p => (([] : List Char), p.1, p.2)
      else none) with
    | some m => some m
    | none => (findUnderlineMatch rest).map fun m => (c :: m.1, m.2.1, m.2.2)

/-- The statement `ContentBlock(type=ContentType.TEXT, value=inner,
underline=True)` of `content_parser.py` line 289-291: the `ContentBlock`
dataclass of `models/exam_document.py` has no `underline` field, so the
keyword argument raises `TypeError`. -/
def underlineBlock (_inner : List Char) : Except PyErr ContentBlock :=
  Except.error PyErr.typeError

/-- The `finditer` loop of `_split_underline_markup`, fuelled by the text
length (each match consumes at least five characters). -/
def underlineLoop : Nat → List Char → Except PyErr (List ContentBlock)
  | _, [] => Except.ok []
  | 0, l => Except.ok [ContentBlock.mk ContentType.TEXT ⟨l⟩ none]
  | fuel+1, l =>
    match findUnderlineMatch l with
    | none => Except.ok (if l.isEmpty then [] else [ContentBlock.mk ContentType.TEXT ⟨l⟩ none])
    | some (before, inner, after) => do
      let pre := if before.isEmpty then [] else [ContentBlock.mk ContentType.TEXT ⟨before⟩ none]
      let emphasised ← if inner.isEmpty then Except.ok ([] : List ContentBlock)
        else do
          let b ← underlineBlock inner
          Except.ok [b]
      let tail ← underlineLoop fuel after
      Except.ok (pre ++ emphasised ++ tail)

/-- `_split_underline_markup(text)`: the match loop followed by the
`blocks if blocks else [ContentBlock(TEXT, text)]` fallback. -/
def splitUnderlineMarkup (text : List Char) : Except PyErr (List ContentBlock) := do
  let blocks ← underlineLoop text.length text
  Except.ok (if blocks.isEmpty then [ContentBlock.mk ContentType.TEXT ⟨text⟩ none] else blocks)

/-! ## Inline-LaTeX pass: `_split_inline_latex`
(`core/content_parser.py` lines 246-267), using the pattern
`(?<!\$)\$(?!\$)(.+?)(?<!\$)\$(?!\$)`. -/

/-- Finds the lazy content and the closing delimiter of an inline `$...$`
match: the first `$` whose preceding character (tracked in `prev`) is not a
`$` and whose following character is not a `$` closes the match; a newline
cannot be part of the content (`.` without DOTALL). -/
def inlineClose (prev : Char) : List Char → Option (List Char × List Char)
  | [] => none
  | c :: rest =>
    if c = '$' && prev ≠ '$' && rest.head? ≠ some '$' then some ([], rest)
    else if c = '\n' then none
    else (inlineClose c rest).map fun p => (c :: p.1, p.2)

/-- First match of the inline-LaTeX pattern: text before the match, the
content between the delimiters, and the text after the match.  `prev` is the
character just before the scan position (for the opening look-behind). -/
def findInlineMatch (prev : Char) : List Char → Option (List Char × List Char × List Char)
  | [] => none
  | c :: rest =>
    match
      (if c = '$' && prev ≠ '$' && rest.head? ≠ some '$' then
        match rest with
        | [] => none
        | d :: rest2 =>
          if d = '\n' then none
          else (inlineClose d rest2).map fun p => (([] : List Char), d :: p.1, p.2)
      else none) with
    | some m => some m
    | none => (findInlineMatch c rest).map fun m => (c :: m.1, m.2.1, m.2.2)

/-- The `finditer` loop of `_split_inline_latex`; after a match the scan
resumes just after the closing `$`, so the look-behind character becomes
`'$'`. -/
def inlineLoop : Nat → Char → List Char → List ContentBlock
  | _, _, [] => []
  | 0, _, l => [ContentBlock.mk ContentType.TEXT ⟨l⟩ none]
  | fuel+1, prev, l =>
    match findInlineMatch prev l with
    | none => if l.isEmpty then [] else [ContentBlock.mk ContentType.TEXT ⟨l⟩ none]
    | some (before, content, after) =>
      let pre := if before.isEmpty then [] else [ContentBlock.mk ContentType.TEXT ⟨before⟩ none]
      let latex := pyStrip content
      let eq := if latex.isEmpty then []
        else [ContentBlock.mk ContentType.EQUATION ⟨latex⟩ none]
      pre ++ eq ++ inlineLoop fuel '$' after

/-- `_split_inline_latex(text)`.  The initial look-behind character is a
sentinel that is not `'$'` (start of string). -/
def splitInlineLatex (text : List Char) : List ContentBlock :=
  let blocks := inlineLoop text.length '\x00' text
  if blocks.isEmpty then [ContentBlock.mk ContentType.TEXT ⟨text⟩ none] else blocks

/-! ## Mixed text/equation heuristic: `_split_mixed_text_equation`
(`core/content_parser.py` lines 187-243), using `_MATH_EXPR_RE`. -/

/-- ASCII Latin letter, the regex class `[a-zA-Z]`. -/
def isLatin (c : Char) : Bool := ('a' ≤ c && c ≤ 'z') || ('A' ≤ c && c ≤ 'Z')

/-- The regex class `[a-zA-Z0-9]`. -/
def isAlnumA (c : Char) : Bool := isLatin c || c.isDigit

/-- The operator class `[=><+\-×÷≤≥≠^_]` of `_MATH_EXPR_RE`. -/
def mathOp (c : Char) : Bool :=
  c = '=' || c = '>' || c = '<' || c = '+' || c = '-' || c = '×' || c = '÷' ||
  c = '≤' || c = '≥' || c = '≠' || c = '^' || c = '_'

/-- Korean syllable, the regex class `[가-힣]`. -/
def isKorean (c : Char) : Bool := 0xac00 ≤ c.toNat && c.toNat ≤ 0xd7a3

/-- Greedy star `(?:\s*[op]\s*[a-zA-Z0-9]+)*` of `_MATH_EXPR_RE`: each
iteration needs an operator and a following alphanumeric run, otherwise the
star stops without consuming the attempted whitespace. -/
def mathExt : Nat → List Char → List Char × List Char
  | 0, l => ([], l)
  | fuel+1, l =>
    let ws1 := l.takeWhile pySpace
    match l.drop ws1.length with
    | c :: rest2 =>
      if mathOp c then
        let ws2 := rest2.takeWhile pySpace
        let rest3 := rest2.drop ws2.length
        let run := rest3.takeWhile isAlnumA
        if run.isEmpty then ([], l)
        else
          let (more, rest4) := mathExt fuel (rest3.drop run.length)
          (ws1 ++ c :: (ws2 ++ run ++ more), rest4)
      else ([], l)
    | [] => ([], l)

/-- First match of `_MATH_EXPR_RE`: text before the match, the matched run,
and the rest.  `prev` is the character before the scan position; the leading
look-behind `(?<![a-zA-Z])` blocks positions preceded by a Latin letter. -/
def findMathMatch (prev : Char) : List Char → Option (List Char × List Char × List Char)
  | [] => none
  | c :: rest =>
    if !(isLatin prev) && isAlnumA c then
      let run := (c :: rest).takeWhile isAlnumA
      let (ext, r) := mathExt rest.length ((c :: rest).drop run.length)
      some ([], run ++ ext, r)
    else (findMathMatch c rest).map fun m => (c :: m.1, m.2.1, m.2.2)

/-- The `finditer` loop of `_split_mixed_text_equation`.  A rejected
candidate (too long, Korean inside, or a single isolated digit) does not
advance `last_end`, so its text flows into the next gap, modelled by the
`pending` accumulator. -/
def mixedLoop : Nat → Char → List Char → List Char → List ContentBlock
  | _, _, [], pending =>
    if pending.isEmpty then [] else [ContentBlock.mk ContentType.TEXT ⟨pending⟩ none]
  | 0, _, l, pending =>
    if (pending ++ l).isEmpty then []
    else [ContentBlock.mk ContentType.TEXT ⟨pending ++ l⟩ none]
  | fuel+1, prev, l, pending =>
    match findMathMatch prev l with
    | none =>
      if (pending ++ l).isEmpty then []
      else [ContentBlock.mk ContentType.TEXT ⟨pending ++ l⟩ none]
    | some (before, matched, rest) =>
      let expr := pyStrip matched
      let prevNext := (matched.getLast?).getD prev
      if 20 < expr.length || expr.any isKorean ||
          (expr.all Char.isDigit && expr.length = 1) then
        mixedLoop fuel prevNext rest (pending ++ before ++ matched)
      else
        (if (pending ++ before).isEmpty then []
         else [ContentBlock.mk ContentType.TEXT ⟨pending ++ before⟩ none]) ++
        ContentBlock.mk ContentType.EQUATION ⟨expr⟩ none ::
        mixedLoop fuel prevNext rest []

/-- `_split_mixed_text_equation(text)`: early exits when the text has no
Korean syllable or no Latin letter; otherwise the match loop, reverted to a
single plain-text block when it would not actually split. -/
def splitMixedTextEquation (text : List Char) : List ContentBlock :=
  if !(text.any isKorean) then [ContentBlock.mk ContentType.TEXT ⟨text⟩ none]
  else if !(text.any isLatin) then [ContentBlock.mk ContentType.TEXT ⟨text⟩ none]
  else
    let blocks := mixedLoop text.length '\x00' text []
    if 1 < blocks.length then blocks else [ContentBlock.mk ContentType.TEXT ⟨text⟩ none]

/-! ## Block dispatch: `_parse_content_block`
(`core/content_parser.py` lines 92-140) -/

/-- Result type of `_parse_content_block`: `None`, a single block, or a list
of blocks. -/
inductive ParseResult
  | noneR
  | one (b : ContentBlock)
  | many (bs : List ContentBlock)
deriving DecidableEq

/-- Attribute lookup `ContentType.<name>` on the enum of
`models/exam_document.py`; a missing member yields `none`, which the Python
runtime reports as `AttributeError`. -/
def contentTypeMember : String → Option ContentType
  | "TEXT" => some ContentType.TEXT
  | "EQUATION" => some ContentType.EQUATION
  | "EQUATION_BLOCK" => some ContentType.EQUATION_BLOCK
  | "IMAGE" => some ContentType.IMAGE
  | _ => none

/-- Converts a failed attribute lookup into the `AttributeError` it raises. -/
def ofAttr {α : Type} : Option α → Except PyErr α
  | some a => Except.ok a
  | none => Except.error PyErr.attributeError

/-- The fields `_parse_content_block` reads from its input dict, with the
defaults of the corresponding `.get` calls. -/
structure BlockData where
  typeStr : String
  value : String
  rows : List (List String) := []

/-- `_parse_content_block(block_data)`.  After the early return for an empty
value, the function builds the `type_map` dict literal, whose entry
`"table": ContentType.TABLE` evaluates `ContentType.TABLE` — an attribute the
enum does not have, so the lookup raises `AttributeError` before any later
pass can run.  The remaining branches (table block construction, underline,
inline-LaTeX and mixed-heuristic passes, and the single-block fallback) are
embedded after that point exactly as written in the source. -/
def parseContentBlock (bd : BlockData) : Except PyErr ParseResult := do
  let typeStr := bd.typeStr
  let value := bd.value
  if value = "" && typeStr ≠ "image" then
    return ParseResult.noneR
  let tTEXT ← ofAttr (contentTypeMember "TEXT")
  let tEQUATION ← ofAttr (contentTypeMember "EQUATION")
  let tEQUATION_BLOCK ← ofAttr (contentTypeMember "EQUATION_BLOCK")
  let tIMAGE ← ofAttr (contentTypeMember "IMAGE")
  let tTABLE ← ofAttr (contentTypeMember "TABLE")
  let typeMap : List (String × ContentType) :=
    [("text", tTEXT), ("equation", tEQUATION), ("equation_block", tEQUATION_BLOCK),
     ("image", tIMAGE), ("table", tTABLE)]
  let contentType := (typeMap.lookup typeStr).getD tTEXT
  if contentType = tTABLE then do
    let _rows := bd.rows
    let tableBlock ← (Except.error PyErr.typeError : Except PyErr ContentBlock)
    return ParseResult.one tableBlock
  if contentType = tTEXT && containsSub ['_', '_'] value.data then do
    let split ← splitUnderlineMarkup value.data
    if 1 < split.length then
      return ParseResult.many split
  if contentType = tTEXT && value.data.contains '$' then
    let split := splitInlineLatex value.data
    if 1 < split.length then
      return ParseResult.many split
  if contentType = tTEXT then
    let split := splitMixedTextEquation value.data
    if 1 < split.length then
      return ParseResult.many split
  return ParseResult.one (ContentBlock.mk contentType value none)

/-! ## LaTeX to HWP transpiler: `core/latex_to_hwpeq.py`

Each `re.sub`-based rewrite stage is realised as a scanner `runSub tryX`:
the scan tries a match at every position from left to right; a successful
match emits its replacement and resumes after the match, a failed attempt
emits one character and advances by one, exactly as `re.sub` does. -/

/-- Generic `re.sub` scanner over a match attempt `tryf`, which returns the
replacement and the text after the match.  Fuelled by the scanned length
(every step, matching or not, consumes at least one character). -/
def scanSub (tryf : List Char → Option (List Char × List Char)) :
    Nat → List Char → List Char
  | _, [] => []
  | 0, l => l
  | fuel+1, c :: rest =>
    match tryf (c :: rest) with
    | some (repl, rest') => repl ++ scanSub tryf fuel rest'
    | none => c :: scanSub tryf fuel rest

/-- Runs a `re.sub` pass over a whole character list. -/
def runSub (tryf : List Char → Option (List Char × List Char)) (l : List Char) : List Char :=
  scanSub tryf l.length l

/-- Matches a literal and returns the remaining characters. -/
def afterLit (lit : String) (l : List Char) : Option (List Char) :=
  if lit.data.isPrefixOf l then some (l.drop lit.data.length) else none

/-- Body of `_brace_group`: the regex `\{(?:[^{}]|\{L2\})*\}` matches a brace
group whose interior nests at most three levels deep (four levels counting
the outer brace); `depth` counts the currently open braces.  Returns the
group content and the text after the closing brace. -/
def braceGroupGo (depth : Nat) (acc : List Char) : List Char → Option (List Char × List Char)
  | [] => none
  | c :: rest =>
    if c = '\x7b' then
      if 4 ≤ depth then none
      else braceGroupGo (depth + 1) (c :: acc) rest
    else if c = '\x7d' then
      if depth = 1 then some (acc.reverse, rest)
      else braceGroupGo (depth - 1) (c :: acc) rest
    else braceGroupGo depth (c :: acc) rest

/-- `_brace_group(name)` as a parser: a `{...}` group with the bounded
nesting of the source regex. -/
def parseBraceGroup : List Char → Option (List Char × List Char)
  | '\x7b' :: rest => braceGroupGo 1 [] rest
  | _ => none

/-- `_brace_group_or_char(name)`: a brace group, or a single character that
is not whitespace, a brace or a backslash. -/
def parseGroupOrChar (l : List Char) : Option (List Char × List Char) :=
  match parseBraceGroup l with
  | some r => some r
  | none =>
    match l with
    | c :: rest =>
      if pySpace c || c = '\x7b' || c = '\x7d' || c = '\\' then none
      else some ([c], rest)
    | [] => none

/-- First pair of a command table whose name is a prefix of the scanned text
(the regex alternation order; no two table names are prefixes of one another
at the same position).  Returns the target token and the remaining text. -/
def findOpName : List (String × String) → List Char → Option (String × List Char)
  | [], _ => none
  | (name, tok) :: rest, l =>
    if name.data.isPrefixOf l then some (tok, l.drop name.data.length)
    else findOpName rest l

/-- Stage 1a, `\text{...}` → `"..."` (content kept literal). -/
def tryTextCmd (l : List Char) : Option (List Char × List Char) := do
  let l1 ← afterLit "\\text" l
  let (txt, l2) ← parseBraceGroup (l1.dropWhile pySpace)
  some ('"' :: (txt ++ ['"']), l2)

/-- Stage 1b, `\mathrm{...}` → `rm ...` (content kept literal). -/
def tryMathrm (l : List Char) : Option (List Char × List Char) := do
  let l1 ← afterLit "\\mathrm" l
  let (txt, l2) ← parseBraceGroup (l1.dropWhile pySpace)
  some ("rm ".data ++ txt, l2)

/-- Stage 1c, `\mathbf{...}` → `bold ...` (content kept literal). -/
def tryMathbf (l : List Char) : Option (List Char × List Char) := do
  let l1 ← afterLit "\\mathbf" l
  let (txt, l2) ← parseBraceGroup (l1.dropWhile pySpace)
  some ("bold ".data ++ txt, l2)

/-- Stage 2, `\binom{n}{k}` → `LEFT ( {n} atop {k} RIGHT )`, recursing into
both arguments. -/
def tryBinom (r : List Char → List Char) (l : List Char) :
    Option (List Char × List Char) := do
  let l1 ← afterLit "\\binom" l
  let (top, l2) ← parseBraceGroup (l1.dropWhile pySpace)
  let (bot, l3) ← parseBraceGroup (l2.dropWhile pySpace)
  some ("LEFT ( \x7b".data ++ r top ++ "\x7d atop \x7b".data ++ r bot ++
    "\x7d RIGHT )".data, l3)

/-- Stage 3, `\frac{a}{b}` → `{a} over {b}`, recursing into numerator and
denominator. -/
def tryFrac (r : List Char → List Char) (l : List Char) :
    Option (List Char × List Char) := do
  let l1 ← afterLit "\\frac" l
  let (num, l2) ← parseBraceGroup (l1.dropWhile pySpace)
  let (den, l3) ← parseBraceGroup (l2.dropWhile pySpace)
  some ('\x7b' :: (r num ++ "\x7d over \x7b".data ++ r den ++ ['\x7d']), l3)

/-- Stage 4a, `\sqrt[n]{x}` → `root {n} of {x}`. -/
def trySqrtN (r : List Char → List Char) (l : List Char) :
    Option (List Char × List Char) := do
  let l1 ← afterLit "\\sqrt" l
  match l1.dropWhile pySpace with
  | '[' :: rest =>
    let idx := rest.takeWhile fun c => c ≠ ']'
    if idx.isEmpty then none
    else
      match rest.drop idx.length with
      | ']' :: l3 => do
        let (body, l4) ← parseBraceGroup (l3.dropWhile pySpace)
        some ("root \x7b".data ++ r idx ++ "\x7d of \x7b".data ++ r body ++ ['\x7d'], l4)
      | _ => none
  | _ => none

/-- Stage 4b, `\sqrt{x}` → `sqrt {x}`. -/
def trySqrt (r : List Char → List Char) (l : List Char) :
    Option (List Char × List Char) := do
  let l1 ← afterLit "\\sqrt" l
  let (body, l2) ← parseBraceGroup (l1.dropWhile pySpace)
  some ("sqrt \x7b".data ++ r body ++ ['\x7d'], l2)

/-- The big-operator alternation of `_big_op_pattern` with its `op_map`
targets, in the alternation order of the source regex. -/
def bigOps : List (String × String) :=
  [("sum", "SUM"), ("prod", "PROD"), ("coprod", "COPROD"), ("int", "INT"),
   ("iint", "DINT"), ("iiint", "TINT"), ("oint", "OINT"),
   ("bigcup", "UNION"), ("bigcap", "INTER")]

/-- Optional bound `(?:\s*MARK\s*GROUP_OR_CHAR)?` of the big-operator
pattern: on any failure the optional group matches empty and consumes
nothing. -/
def tryBound (mark : Char) (l : List Char) : List Char × List Char :=
  match l.dropWhile pySpace with
  | c :: rest =>
    if c = mark then
      match parseGroupOrChar (rest.dropWhile pySpace) with
      | some (content, l2) => (content, l2)
      | none => ([], l)
    else ([], l)
  | [] => ([], l)

/-- Stage 5, big operators with optional `_` and `^` bounds; an empty bound
(per `_get_match` returning `""`) emits nothing. -/
def tryBigOp (r : List Char → List Char) (l : List Char) :
    Option (List Char × List Char) := do
  let l1 ← afterLit "\\" l
  let (tok, l2) ← findOpName bigOps l1
  let (lo, l3) := tryBound '_' l2
  let (hi, l4) := tryBound '^' l3
  let repl := tok.data ++
    (if lo.isEmpty then [] else " _\x7b".data ++ r lo ++ ['\x7d']) ++
    (if hi.isEmpty then [] else " ^\x7b".data ++ r hi ++ ['\x7d'])
  some (repl, l4)

/-- Opening delimiter class `[(\[{|.]` of `_leftright_pattern`. -/
def lrOpenDelim (c : Char) : Bool :=
  c = '(' || c = '[' || c = '\x7b' || c = '|' || c = '.'

/-- Closing delimiter class `[)\]}|.]` of `_leftright_pattern`. -/
def lrCloseDelim (c : Char) : Bool :=
  c = ')' || c = ']' || c = '\x7d' || c = '|' || c = '.'

/-- The `delim_map` of `_leftright_repl` applied to a captured delimiter
character (braces map to named tokens, `.` to no token). -/
def lrDelimMap (c : Char) : List Char :=
  if c = '(' then ['('] else if c = ')' then [')']
  else if c = '[' then ['['] else if c = ']' then [']']
  else if c = '\x7b' then "lbrace".data else if c = '\x7d' then "rbrace".data
  else if c = '|' then ['|']
  else if c = '.' then []
  else [c]

/-- Attempts `\s*\\right\s*[)\]}|.]` at the current position. -/
def lrClose (l : List Char) : Option (Char × List Char) := do
  let l2 ← afterLit "\\right" (l.dropWhile pySpace)
  match l2.dropWhile pySpace with
  | c :: rest => if lrCloseDelim c then some (c, rest) else none
  | [] => none

/-- Lazy body `(.*?)\s*\\right\s*DELIM`: the earliest position at which the
closing sequence matches ends the body. -/
def lrBody : List Char → Option (List Char × Char × List Char)
  | [] => none
  | c :: rest =>
    match lrClose (c :: rest) with
    | some (d, after) => some ([], d, after)
    | none => (lrBody rest).map fun m => (c :: m.1, m.2.1, m.2.2)

/-- Stage 6, `\left D ... \right D'` → `LEFT d ... RIGHT d'` with the four
emission cases of `_leftright_repl`. -/
def tryLeftRight (r : List Char → List Char) (l : List Char) :
    Option (List Char × List Char) := do
  let l1 ← afterLit "\\left" l
  match l1.dropWhile pySpace with
  | c :: rest =>
    if lrOpenDelim c then do
      let (body, d, after) ← lrBody (rest.dropWhile pySpace)
      let lStr := lrDelimMap c
      let rStr := lrDelimMap d
      let inner := r body
      let repl :=
        if lStr ≠ [] && rStr ≠ [] then
          "LEFT ".data ++ lStr ++ ' ' :: (inner ++ ' ' :: ("RIGHT ".data ++ rStr))
        else if lStr ≠ [] then "LEFT ".data ++ lStr ++ ' ' :: inner
        else if rStr ≠ [] then inner ++ ' ' :: ("RIGHT ".data ++ rStr)
        else inner
      some (repl, after)
    else none
  | [] => none

/-- The `ACCENT_MAP` of the converter, in dict order (which is the
alternation order of `_accent_pattern`). -/
def accentList : List (String × String) :=
  [("vec", "VEC"), ("bar", "BAR"), ("hat", "HAT"), ("tilde", "TILDE"),
   ("dot", "DOT"), ("ddot", "DDOT"), ("acute", "acute"), ("grave", "grave"),
   ("check", "check"), ("breve", "arch"), ("overline", "overline"),
   ("underline", "underline"), ("overrightarrow", "VEC"),
   ("widehat", "HAT"), ("widetilde", "TILDE")]

/-- Stage 7, accents: `\vec{A}` → `VEC {A}`, recursing into the body. -/
def tryAccent (r : List Char → List Char) (l : List Char) :
    Option (List Char × List Char) := do
  let l1 ← afterLit "\\" l
  let (tok, l2) ← findOpName accentList l1
  let (body, l3) ← parseBraceGroup (l2.dropWhile pySpace)
  some (tok.data ++ ' ' :: '\x7b' :: (r body ++ ['\x7d']), l3)

/-- Stage 11a, superscript `\^\s*GROUP_OR_CHAR` → ` ^{...}` with recursion
into the exponent. -/
def trySup (r : List Char → List Char) (l : List Char) :
    Option (List Char × List Char) :=
  match l with
  | '^' :: rest =>
    (parseGroupOrChar (rest.dropWhile pySpace)).map fun p =>
      (" ^\x7b".data ++ r p.1 ++ ['\x7d'], p.2)
  | _ => none

/-- Stage 11b, subscript `_\s*GROUP_OR_CHAR` → ` _{...}`. -/
def trySub (r : List Char → List Char) (l : List Char) :
    Option (List Char × List Char) :=
  match l with
  | '_' :: rest =>
    (parseGroupOrChar (rest.dropWhile pySpace)).map fun p =>
      (" _\x7b".data ++ r p.1 ++ ['\x7d'], p.2)
  | _ => none

/-- Stage 12, plain grouping `\{([^{}]+)\}`: an innermost non-empty brace
group, recursed into. -/
def tryBraceInner (r : List Char → List Char) (l : List Char) :
    Option (List Char × List Char) :=
  match l with
  | '\x7b' :: rest =>
    let inner := rest.takeWhile fun c => c ≠ '\x7b' && c ≠ '\x7d'
    if inner.isEmpty then none
    else
      match rest.drop inner.length with
      | '\x7d' :: l2 => some ('\x7b' :: (r inner ++ ['\x7d']), l2)
      | _ => none
  | _ => none

/-- The `_env_pattern` alternation with the `env_map` targets of
`_env_repl`, in source order. -/
def envList : List (String × String) :=
  [("cases", "CASES"), ("pmatrix", "PMATRIX"), ("bmatrix", "BMATRIX"),
   ("vmatrix", "DMATRIX"), ("matrix", "MATRIX")]

/-- First environment name followed by a closing brace at the scanned
position. -/
def findEnvName : List (String × String) → List Char →
    Option (String × String × List Char)
  | [], _ => none
  | (name, tok) :: rest, l =>
    if (name ++ "\x7d").data.isPrefixOf l then
      some (name, tok, l.drop (name.length + 1))
    else findEnvName rest l

/-- Stage 0, `\begin{env}...\end{env}` (lazy body, so up to the first
matching `\end`): rows separators `\\` become ` # `, the stripped content is
recursed into and wrapped as `TOKEN {...}`. -/
def tryEnv (r : List Char → List Char) (l : List Char) :
    Option (List Char × List Char) := do
  let l1 ← afterLit "\\begin\x7b" l
  let (name, tok, l2) ← findEnvName envList l1
  let (between, l3) ← findSub ("\\end\x7b" ++ name ++ "\x7d").data l2
  let content := replaceSub "\\\\".data " # ".data (pyStrip between)
  some (tok.data ++ ' ' :: '\x7b' :: (r content ++ ['\x7d']), l3)

/-- `GREEK_MAP` of `LaTeXToHWPConverter`, in dict insertion order. -/
def GREEK_MAP : List (String × String) :=
  [("\\alpha", "alpha"), ("\\beta", "beta"), ("\\gamma", "gamma"),
   ("\\delta", "delta"), ("\\epsilon", "epsilon"), ("\\varepsilon", "varepsilon"),
   ("\\zeta", "zeta"), ("\\eta", "eta"), ("\\theta", "theta"),
   ("\\vartheta", "vartheta"), ("\\iota", "iota"), ("\\kappa", "kappa"),
   ("\\lambda", "lambda"), ("\\mu", "mu"), ("\\nu", "nu"), ("\\xi", "xi"),
   ("\\pi", "pi"), ("\\rho", "rho"), ("\\sigma", "sigma"), ("\\tau", "tau"),
   ("\\upsilon", "upsilon"), ("\\phi", "phi"), ("\\varphi", "varphi"),
   ("\\chi", "chi"), ("\\psi", "psi"), ("\\omega", "omega"),
   ("\\Gamma", "Gamma"), ("\\Delta", "Delta"), ("\\Theta", "Theta"),
   ("\\Lambda", "Lambda"), ("\\Xi", "Xi"), ("\\Pi", "Pi"),
   ("\\Sigma", "Sigma"), ("\\Upsilon", "Upsilon"), ("\\Phi", "Phi"),
   ("\\Chi", "Chi"), ("\\Psi", "Psi"), ("\\Omega", "Omega")]

/-- `SYMBOL_MAP` of `LaTeXToHWPConverter`, in dict insertion order. -/
def SYMBOL_MAP : List (String × String) :=
  [("\\times", "TIMES"), ("\\cdot", "CDOT"), ("\\div", "DIV"),
   ("\\pm", "PLUSMINUS"), ("\\mp", "MINUSPLUS"),
   ("\\leq", "LEQ"), ("\\le", "LEQ"), ("\\geq", "GEQ"), ("\\ge", "GEQ"),
   ("\\neq", "neq"), ("\\ne", "neq"), ("\\approx", "APPROX"),
   ("\\equiv", "EQUIV"), ("\\sim", "SIM"), ("\\simeq", "SIMEQ"),
   ("\\cong", "CONG"), ("\\propto", "PROPTO"), ("\\asymp", "ASYMP"),
   ("\\doteq", "DOTEQ"), ("\\prec", "PREC"), ("\\succ", "SUCC"),
   ("\\ll", "<<"), ("\\gg", ">>"),
   ("\\infty", "inf"), ("\\partial", "partial"), ("\\nabla", "LAPLACE"),
   ("\\forall", "forall"), ("\\exists", "EXIST"), ("\\in", "in"),
   ("\\notin", "notin"), ("\\ni", "OWNS"), ("\\subset", "subset"),
   ("\\supset", "supset"), ("\\subseteq", "subseteq"),
   ("\\supseteq", "supseteq"), ("\\cup", "SMALLUNION"),
   ("\\cap", "SMALLINTER"), ("\\emptyset", "emptyset"), ("\\vee", "VEE"),
   ("\\lor", "VEE"), ("\\wedge", "WEDGE"), ("\\land", "WEDGE"),
   ("\\neg", "LNOT"), ("\\lnot", "LNOT"), ("\\oplus", "OPLUS"),
   ("\\otimes", "OTIMES"), ("\\therefore", "therefore"),
   ("\\because", "because"), ("\\angle", "angle"), ("\\perp", "BOT"),
   ("\\parallel", "parallel"), ("\\triangle", "TRIANGLE"),
   ("\\square", "\"□\""), ("\\circ", "CIRC"), ("\\bullet", "BULLET"),
   ("\\star", "STAR"), ("\\diamond", "DIAMOND"), ("\\top", "TOP"),
   ("\\vdash", "VDASH"), ("\\models", "MODELS"),
   ("\\rightarrow", "->"), ("\\leftarrow", "<-"), ("\\leftrightarrow", "<->"),
   ("\\to", "->"), ("\\gets", "<-"), ("\\uparrow", "uparrow"),
   ("\\downarrow", "downarrow"), ("\\updownarrow", "udarrow"),
   ("\\nearrow", "nearrow"), ("\\nwarrow", "nwarrow"),
   ("\\searrow", "searrow"), ("\\swarrow", "swarrow"),
   ("\\hookleftarrow", "hookleft"), ("\\hookrightarrow", "hookright"),
   ("\\mapsto", "mapsto"),
   ("\\Rightarrow", "RARROW"), ("\\Leftarrow", "LARROW"),
   ("\\Leftrightarrow", "LRARROW"), ("\\Uparrow", "UPARROW"),
   ("\\Downarrow", "DOWNARROW"), ("\\Updownarrow", "UDARROW"),
   ("\\ldots", "LDOTS"), ("\\cdots", "CDOTS"), ("\\vdots", "VDOTS"),
   ("\\ddots", "DDOTS"),
   ("\\prime", "prime"), ("\\aleph", "ALEPH"), ("\\hbar", "HBAR"),
   ("\\imath", "IMATH"), ("\\jmath", "JMATH"), ("\\ell", "ELL"),
   ("\\wp", "WP"), ("\\Im", "IMAG"), ("\\Re", "REIMAGE"),
   ("\\dagger", "DAGGER"), ("\\ddagger", "DDAGGER")]

/-- `FUNC_MAP` of `LaTeXToHWPConverter`, in dict insertion order. -/
def FUNC_MAP : List (String × String) :=
  [("\\sin", "sin"), ("\\cos", "cos"), ("\\tan", "tan"), ("\\sec", "sec"),
   ("\\csc", "csc"), ("\\cot", "cot"), ("\\cosec", "cosec"),
   ("\\arcsin", "arcsin"), ("\\arccos", "arccos"), ("\\arctan", "arctan"),
   ("\\sinh", "sinh"), ("\\cosh", "cosh"), ("\\tanh", "tanh"),
   ("\\coth", "coth"), ("\\log", "log"), ("\\ln", "ln"), ("\\lg", "lg"),
   ("\\exp", "exp"), ("\\Exp", "Exp"), ("\\det", "det"), ("\\max", "max"),
   ("\\min", "min"), ("\\sup", "sup"), ("\\inf", "inf"), ("\\lim", "lim"),
   ("\\Lim", "Lim"), ("\\gcd", "gcd"), ("\\arg", "arg"), ("\\dim", "dim"),
   ("\\ker", "ker"), ("\\hom", "hom"), ("\\mod", "mod"), ("\\lcm", "lcm")]

/-- Inserts a pair after all pairs whose command is at least as long, the
insertion step of a stable sort by descending command length. -/
def insertByLenDesc (p : String × String) :
    List (String × String) → List (String × String)
  | [] => [p]
  | q :: rest =>
    if p.1.length ≤ q.1.length then q :: insertByLenDesc p rest
    else p :: q :: rest

/-- Python `sorted(table.items(), key=lambda x: -len(x[0]))`: a stable sort
of a command table by descending command length. -/
def sortByLenDesc (l : List (String × String)) : List (String × String) :=
  l.foldl (fun acc p => insertByLenDesc p acc) []

/-- Sequential literal substitution of a whole table (the replacement loops
of stages 8-10). -/
def applyMap (table : List (String × String)) (s : List Char) : List Char :=
  table.foldl (fun s p => replaceSub p.1.data p.2.data s) s

/-- The Greek table in the order substitutions are applied (stage 8). -/
def greekSorted : List (String × String) := sortByLenDesc GREEK_MAP

/-- The symbol table in the order substitutions are applied (stage 9). -/
def symbolSorted : List (String × String) := sortByLenDesc SYMBOL_MAP

/-- The function table in the order substitutions are applied (stage 10). -/
def funcSorted : List (String × String) := sortByLenDesc FUNC_MAP

/-- Head-character test used by the command stripper. -/
def headAlpha : List Char → Bool
  | c :: _ => c.isAlpha
  | [] => false

/-- State machine equivalent of `re.sub(r"\\[a-zA-Z]+", "", s)`: a backslash
followed by a letter starts a command (dropped, including its letter run,
tracked by the `inCmd` flag); everything else is kept. -/
def stripGo : Bool → List Char → List Char
  | _, [] => []
  | inCmd, c :: rest =>
    if inCmd && c.isAlpha then stripGo true rest
    else if c = '\\' && headAlpha rest then stripGo true rest
    else c :: stripGo false rest

/-- The final command stripper of stage 13. -/
def stripCommands (l : List Char) : List Char := stripGo false l

/-- Stage 13: the literal spacing replacements followed by the removal of
every remaining backslash command. -/
def cleanup (s : List Char) : List Char :=
  let s := replaceSub "\\,".data "\x60".data s
  let s := replaceSub "\\;".data "~".data s
  let s := replaceSub "\\!".data [] s
  let s := replaceSub "\\qquad".data "~~~~".data s
  let s := replaceSub "\\quad".data "~~".data s
  let s := replaceSub "\\\\".data [] s
  stripCommands s

/-- `_convert_expr(s)`: the fifteen rewrite stages in source order.  The
recursive calls made inside replacement callbacks use the full pipeline at
one unit less fuel; the zero-fuel case (never reached from `convert` on the
inputs of the theorems below, and standing for the interpreter's recursion
safety bound) returns its argument unchanged. -/
def convertExpr : Nat → List Char → List Char
  | 0, s => s
  | fuel+1, s =>
    if s.isEmpty then []
    else
      let r := convertExpr fuel
      let s := runSub (tryEnv r) s
      let s := runSub tryTextCmd s
      let s := runSub tryMathrm s
      let s := runSub tryMathbf s
      let s := runSub (tryBinom r) s
      let s := runSub (tryFrac r) s
      let s := runSub (trySqrtN r) s
      let s := runSub (trySqrt r) s
      let s := runSub (tryBigOp r) s
      let s := runSub (tryLeftRight r) s
      let s := runSub (tryAccent r) s
      let s := applyMap greekSorted s
      let s := applyMap symbolSorted s
      let s := applyMap funcSorted s
      let s := runSub (trySup r) s
      let s := runSub (trySub r) s
      let s := runSub (tryBraceInner r) s
      cleanup s

/-- One marker removal `re.sub(r"\\begin\{name\*?\}", "", s)` (and the same
for `\end`): `lead` is the text before the optional star. -/
def tryEnvMarker (lead : String) (l : List Char) : Option (List Char × List Char) := do
  let l1 ← afterLit lead l
  match l1 with
  | '*' :: '\x7d' :: rest => some ([], rest)
  | '\x7d' :: rest => some ([], rest)
  | _ => none

/-- Removal of `\begin{name}`/`\end{name}` (with optional `*`) for one
display-math environment name. -/
def stripMathEnvMarkers (name : String) (s : List Char) : List Char :=
  let s := runSub (tryEnvMarker ("\\begin\x7b" ++ name)) s
  runSub (tryEnvMarker ("\\end\x7b" ++ name)) s

/-- One space-run collapse step of `re.sub(r"  +", " ", result)`: every run
of spaces is emitted as a single space. -/
def collapseGo : Bool → List Char → List Char
  | _, [] => []
  | prevSpace, c :: rest =>
    if c = ' ' then
      if prevSpace then collapseGo true rest
      else ' ' :: collapseGo true rest
    else c :: collapseGo false rest

/-- `re.sub(r"  +", " ", result)`. -/
def collapseSpaces (l : List Char) : List Char := collapseGo false l

/-- Preprocessing of `LaTeXToHWPConverter.convert` (lines 332-342): strip
whitespace and `$` delimiters, remove display-math brackets and environment
markers, and strip again. -/
def convertPre (latex : String) : List Char :=
  let s := pyStrip latex.data
  let s := pyStripDollar s
  let s := pyStrip s
  let s := replaceSub "\\[".data [] s
  let s := replaceSub "\\]".data [] s
  let s := replaceSub "\\(".data [] s
  let s := replaceSub "\\)".data [] s
  let s := stripMathEnvMarkers "equation" s
  let s := stripMathEnvMarkers "align" s
  let s := stripMathEnvMarkers "gather" s
  let s := stripMathEnvMarkers "displaymath" s
  pyStrip s

/-- Conversion and postprocessing of `LaTeXToHWPConverter.convert`
(lines 343-347): the recursive expression conversion followed by the
whitespace collapse and final strip. -/
def convertTail (s : List Char) : List Char :=
  pyStrip (collapseSpaces (convertExpr (s.length + 1) s))

/-- `LaTeXToHWPConverter.convert(latex)` (and the module-level
`latex_to_hwpeq`): preprocessing, the recursive expression conversion, and
the final whitespace normalisation. -/
def convert (latex : String) : String := ⟨convertTail (convertPre latex)⟩

/-! ## Equation size estimator: `core/hwpx_writer.py` -/

/-- `_SYMBOL_KEYWORDS` of `hwpx_writer.py`, in source order (hand-ordered
longest-first so that e.g. `varepsilon` is replaced before `epsilon`). -/
def SYMBOL_KEYWORDS : List String :=
  ["PLUSMINUS", "MINUSPLUS", "SMALLUNION", "SMALLINTER",
   "APPROX", "PROPTO", "LAPLACE", "BULLET", "TRIANGLE",
   "DIAMOND", "SQUARE",
   "EQUIV", "SIMEQ", "ASYMP", "DOTEQ",
   "TIMES", "CDOT", "EXIST",
   "WEDGE", "LNOT", "OPLUS", "OTIMES",
   "VDASH", "MODELS",
   "PREC", "SUCC", "CONG", "OWNS", "CIRC", "STAR",
   "DIV", "LEQ", "GEQ", "SIM", "VEE", "BOT", "TOP",
   "varepsilon", "vartheta", "varphi",
   "epsilon", "upsilon", "lambda",
   "alpha", "beta", "gamma", "delta", "zeta", "eta", "theta",
   "iota", "kappa", "mu", "nu", "xi", "pi", "rho", "sigma",
   "tau", "phi", "chi", "psi", "omega",
   "partial", "therefore", "because", "forall", "exists",
   "emptyset", "subseteq", "supseteq", "subset", "supset",
   "notin", "parallel",
   "infty", "prime", "dprime", "angle", "nabla", "bullet",
   "approx", "propto", "equiv", "neq", "leq", "geq", "sim",
   "cdot", "times", "div", "pm", "mp", "inf", "in"]

/-- `_LARGE_OP_KEYWORDS` of `hwpx_writer.py`. -/
def LARGE_OP_KEYWORDS : List String := ["SUM", "PROD", "OINT", "DINT", "TINT", "INT"]

/-- `_STRUCT_KEYWORDS` of `hwpx_writer.py` (layout-only tokens, removed). -/
def STRUCT_KEYWORDS : List String :=
  ["eqalign", "matrix", "cases", "pile",
   "sqrt", "root", "of",
   "over", "atop",
   "from", "left", "right",
   "roman", "bold", "ital",
   "to"]

/-- The three keyword replacement loops at the top of `_visual_char_count`:
symbol tokens to one glyph `G`, large operators to one wide glyph `W`,
structural tokens to nothing. -/
def visualKeywordPass (s : List Char) : List Char :=
  let s := SYMBOL_KEYWORDS.foldl (fun s kw => replaceSub kw.data "G".data s) s
  let s := LARGE_OP_KEYWORDS.foldl (fun s kw => replaceSub kw.data "W".data s) s
  STRUCT_KEYWORDS.foldl (fun s kw => replaceSub kw.data [] s) s

/-- Sum over `re.finditer(r'[\^_]\{([^{}]*)\}', s)` of the space-free length
of the group content. -/
def supSubCountGo : Nat → List Char → Nat
  | _, [] => 0
  | 0, _ => 0
  | fuel+1, c :: rest =>
    if c = '^' || c = '_' then
      match rest with
      | '\x7b' :: r2 =>
        let content := r2.takeWhile fun d => d ≠ '\x7b' && d ≠ '\x7d'
        match r2.drop content.length with
        | '\x7d' :: r3 =>
          (content.filter fun d => d ≠ ' ').length + supSubCountGo fuel r3
        | _ => supSubCountGo fuel rest
      | _ => supSubCountGo fuel rest
    else supSubCountGo fuel rest

/-- `re.sub(r'[\^_]\{[^{}]*\}', '', s)`. -/
def removeSupSubGo : Nat → List Char → List Char
  | _, [] => []
  | 0, l => l
  | fuel+1, c :: rest =>
    if c = '^' || c = '_' then
      match rest with
      | '\x7b' :: r2 =>
        let content := r2.takeWhile fun d => d ≠ '\x7b' && d ≠ '\x7d'
        match r2.drop content.length with
        | '\x7d' :: r3 => removeSupSubGo fuel r3
        | _ => c :: removeSupSubGo fuel rest
      | _ => c :: removeSupSubGo fuel rest
    else c :: removeSupSubGo fuel rest

/-- Count of `re.finditer(r'[\^_](\S)', s)` matches (each consumes the
marker and one non-whitespace character). -/
def supSubSingleGo : Nat → List Char → Nat
  | _, [] => 0
  | 0, _ => 0
  | fuel+1, c :: rest =>
    if c = '^' || c = '_' then
      match rest with
      | d :: r2 => if pySpace d then supSubSingleGo fuel rest else 1 + supSubSingleGo fuel r2
      | [] => 0
    else supSubSingleGo fuel rest

/-- `_visual_char_count(text)` in half units: the source returns the float
`(total - sup_sub) + sup_sub * 0.5 = total - sup_sub / 2`, which is exactly
this integer divided by two (kept doubled so all arithmetic stays exact;
every downstream multiplier is even). -/
def visualHalfUnits (text : List Char) : Int :=
  let s := visualKeywordPass text
  let noBraceSupSub := removeSupSubGo s.length s
  let supSub : Nat := supSubCountGo s.length s + supSubSingleGo noBraceSupSub.length noBraceSupSub
  let s := s.filter fun c => c ≠ '\x7b'
  let s := s.filter fun c => c ≠ '\x7d'
  let s := s.filter fun c => c ≠ '^'
  let s := s.filter fun c => c ≠ '_'
  let total : Nat := (pyStrip (s.filter fun c => c ≠ ' ')).length
  2 * (total : Int) - (supSub : Int)

/-- The fraction test `"over" in script or "atop" in script` of
`_estimate_equation_size`. -/
def hasFractionTok (s : List Char) : Bool :=
  containsSub "over".data s || containsSub "atop".data s

/-- The radical test `"sqrt" in script or "root" in script`. -/
def hasSqrtTok (s : List Char) : Bool :=
  containsSub "sqrt".data s || containsSub "root".data s

/-- `script.replace("atop", "over").split("over")`. -/
def fracParts (s : List Char) : List (List Char) :=
  splitOnSub "over".data (replaceSub "atop".data "over".data s)

/-- Python `max(...)` over the per-part visible counts (the parts list of a
`str.split` is never empty). -/
def maxHalfUnits : List (List Char) → Int
  | [] => 0
  | p :: rest => rest.foldl (fun m q => max m (visualHalfUnits q)) (visualHalfUnits p)

/-- The `visible_len` driving the width estimate: for a fraction the maximal
side of the `over` split, otherwise the whole script. -/
def drivingHalfUnits (s : List Char) : Int :=
  if hasFractionTok s then maxHalfUnits (fracParts s) else visualHalfUnits s

/-- `_estimate_equation_size(hwp_eq_script)`.  `CHAR_WIDTH = 650` per
character is `325` per half unit and `PADDING = 200`; the float scalings
`int(width * 1.4)` are modelled as `width * 7 / 5` (width is positive there,
so Python's truncation is the floor). -/
def estimateEquationSize (s : List Char) : Int × Int :=
  let visible := drivingHalfUnits s
  let width := max (visible * 325 + 200) 800
  let width := if hasFractionTok s then width * 7 / 5 else width
  let width := if hasSqrtTok s then width * 7 / 5 else width
  let height : Int := 1200
  let height := if hasFractionTok s then 2400 else height
  let height := if hasSqrtTok s then max height 1600 else height
  let height := if hasFractionTok s && hasSqrtTok s then max height 3200 else height
  (width, height)

/-- `_extract_latex_brace` inner loop: `depth` counts open braces of the
first group; the matching close returns (content, rest), exhaustion returns
everything after the opening brace. -/
def extractBraceGo (depth : Int) (acc : List Char) : List Char → List Char × List Char
  | [] => (acc.reverse, [])
  | c :: rest =>
    if c = '\x7b' then extractBraceGo (depth + 1) (c :: acc) rest
    else if c = '\x7d' then
      if depth - 1 = 0 then (acc.reverse, rest)
      else extractBraceGo (depth - 1) (c :: acc) rest
    else extractBraceGo depth (c :: acc) rest

/-- `_extract_latex_brace(s)` (`hwpx_writer.py` lines 100-117). -/
def extractLatexBrace (s : List Char) : List Char × List Char :=
  let s := s.dropWhile pySpace
  match s with
  | '\x7b' :: rest => extractBraceGo 1 [] rest
  | _ => ([], s)

/-- The search `re.search(r"\\(?:d?frac)\s*\{", latex)`: a backslash, an
optional `d`, `frac`, optional whitespace, then an opening brace.  Returns
the rest of the string from the brace on success. -/
def tryFracMarker (l : List Char) : Option (List Char) := do
  let l1 ← afterLit "\\" l
  let l2 ← (afterLit "dfrac" l1).orElse fun _ => afterLit "frac" l1
  match l2.dropWhile pySpace with
  | '\x7b' :: r => some ('\x7b' :: r)
  | _ => none

/-- First `\frac`/`\dfrac` marker in the string: the text before it and the
text from its opening brace (`latex[frac_match.end()-1:]`). -/
def findFracMarker : List Char → Option (List Char × List Char)
  | [] => none
  | c :: rest =>
    match tryFracMarker (c :: rest) with
    | some fromBrace => some ([], fromBrace)
    | none => (findFracMarker rest).map fun p => (c :: p.1, p.2)

/-- The inner `mpl_width` helper of `_measure_latex_size`: zero for a blank
expression, otherwise the external matplotlib measurement (abstracted as the
injected `oracle`). -/
def mplWidth (oracle : String → ℚ → Int) (expr : List Char) (fontsize : ℚ) : Int :=
  if (pyStrip expr).isEmpty then 0 else oracle ⟨expr⟩ fontsize

/-- `FRAC_SCALE = 0.85` of `_measure_latex_size` (exact as a rational). -/
def FRAC_SCALE : ℚ := 85 / 100

/-- `_measure_latex_size(latex)`.  The whole body runs under
`try: ... except Exception: return None`; the matplotlib collaborator is
abstracted as an oracle that either provides a measurement function or
fails, and a failing collaborator yields `None` (never an exception). -/
def measureLatexSize (oracle : Except Unit (String → ℚ → Int)) (latex : List Char) :
    Option (Int × Int) :=
  match oracle with
  | Except.error _ => none
  | Except.ok measure =>
    match findFracMarker latex with
    | some (beforeFrac, fromBrace) =>
      let preText := pyStrip beforeFrac
      let (numerator, afterNum) := extractLatexBrace fromBrace
      let (denominator, suffix0) := extractLatexBrace afterNum
      let suffix := pyStrip suffix0
      let wPre := if preText.isEmpty then 0 else mplWidth measure preText 10
      let wNum := mplWidth measure numerator (10 * FRAC_SCALE)
      let wDen := mplWidth measure denominator (10 * FRAC_SCALE)
      let wSuffix := if suffix.isEmpty then 0 else mplWidth measure suffix 10
      let wFrac := max wNum wDen + 300
      let w := wPre
      let w := if wPre ≠ 0 then w + 200 else w
      let w := w + wFrac
      let w := if wSuffix ≠ 0 then w + 200 + wSuffix else w
      let h : Int := 2400
      let h := if containsSub "\\sqrt".data latex then max h 3200 else h
      some (max w 800, h)
    | none =>
      let w := mplWidth measure latex 10
      let h : Int := if containsSub "\\sqrt".data latex then 1600 else 1200
      some (max w 800, h)

/-! ## Theorems -/

/-- The splitter never returns an empty part list. -/
theorem splitGo_ne_nil (l : List Char) : ∀ (d : Int) (cur : List Char),
    splitGo d cur l ≠ [] := by
  induction l with
  | nil => intro d cur; simp [splitGo]
  | cons c rest ih =>
    intro d cur
    simp only [splitGo]
    split
    · exact ih _ _
    · split
      · exact ih _ _
      · split
        · simp
        · exact ih _ _

/-- Joining the split of `l` started with accumulator `cur` recovers
`cur.reverse ++ l`. -/
theorem joinCommas_splitGo (l : List Char) : ∀ (d : Int) (cur : List Char),
    joinCommas (splitGo d cur l) = cur.reverse ++ l := by
  induction l with
  | nil => intro d cur; simp [splitGo, joinCommas]
  | cons c rest ih =>
    intro d cur
    simp only [splitGo]
    split
    · rw [ih]; simp
    · split
      · rw [ih]; simp
      · split
        · rename_i hcm
          simp only [Bool.and_eq_true, decide_eq_true_eq] at hcm
          cases hsplit : splitGo d ([] : List Char) rest with
          | nil => exact absurd hsplit (splitGo_ne_nil rest d [])
          | cons q t =>
            have hjoin := ih d ([] : List Char)
            rw [hsplit] at hjoin
            simp only [List.reverse_nil, List.nil_append] at hjoin
            simp only [joinCommas]
            rw [hjoin]
            simp [hcm.1]
        · rw [ih]; simp

set_option linter.unusedVariables false in
/-- C10: round-trip of the top-level comma split — joining the returned
parts with a single comma reconstructs the input string exactly. -/
theorem comma_split_roundtrip (s : String) :
    joinWithComma (splitAtTopLevelCommas s) = s := by
  unfold joinWithComma splitAtTopLevelCommas
  rw [List.map_map]
  have hmap : (String.data ∘ fun l : List Char => (⟨l⟩ : String)) = id := rfl
  rw [hmap, List.map_id, joinCommas_splitGo]
  rfl

/-- The running counter of `balTo` stays non-negative when started
non-negative. -/
theorem balTo_nonneg {d e : Int} {l : List Char} (h : balTo d l = some e)
    (hd : 0 ≤ d) : 0 ≤ e := by
  induction l generalizing d with
  | nil => simp [balTo] at h; omega
  | cons c rest ih =>
    simp only [balTo] at h
    split at h
    · exact absurd h (by simp)
    · rename_i hneg
      exact ih h (by omega)

/-- `balTo` distributes over list append. -/
theorem balTo_append (d : Int) (l1 l2 : List Char) :
    balTo d (l1 ++ l2) = (balTo d l1).bind fun e => balTo e l2 := by
  induction l1 generalizing d with
  | nil => simp [balTo]
  | cons c rest ih =>
    simp only [List.cons_append, balTo]
    split
    · simp
    · exact ih _

/-- A character which is neither an opening nor a closing bracket has
bracket delta zero. -/
theorem bracketDelta_other {c : Char} (h1 : bracketOpen c = false)
    (h2 : bracketClose c = false) : bracketDelta c = 0 := by
  simp [bracketDelta, h1, h2]

/-- Unfolding lemma: balance on the empty list means depth zero. -/
theorem balancedChk_nil {d : Int} : balancedChk d [] = true ↔ d = 0 := by
  simp [balancedChk, balTo]

/-- Unfolding lemma: one balance step over a cons cell. -/
theorem balancedChk_cons {d : Int} {c : Char} {rest : List Char} :
    balancedChk d (c :: rest) = true ↔
      0 ≤ d + bracketDelta c ∧ balancedChk (d + bracketDelta c) rest = true := by
  by_cases h : d + bracketDelta c < 0
  · simp [balancedChk, balTo, h]
  · simp only [balancedChk, balTo, if_neg h]
    exact ⟨fun hx => ⟨by omega, hx⟩, fun hx => hx.2⟩

/-- Every part returned by the splitter loop on a balanced remainder is
itself balanced: the generalised invariant is that the accumulator so far is
bracket-safe and ends exactly at the current depth. -/
theorem splitGo_parts_balanced (l : List Char) :
    ∀ (d : Int) (cur : List Char), balTo 0 cur.reverse = some d →
    balancedChk d l = true →
    ∀ part ∈ splitGo d cur l, balancedChk 0 part = true := by
  induction l with
  | nil =>
    intro d cur hcur hbal part hmem
    simp only [splitGo, List.mem_singleton] at hmem
    subst hmem
    have hd : d = 0 := balancedChk_nil.mp hbal
    simp [balancedChk, hcur, hd]
  | cons c rest ih =>
    intro d cur hcur hbal part hmem
    have hcons := balancedChk_cons.mp hbal
    simp only [splitGo] at hmem
    split at hmem
    · rename_i hop
      have hdelta : bracketDelta c = 1 := by simp [bracketDelta, hop]
      have hstep : depthStep d c = d + 1 := by simp [depthStep, hop]
      rw [hstep] at hmem
      rw [hdelta] at hcons
      refine ih (d + 1) (c :: cur) ?_ hcons.2 part hmem
      simp only [List.reverse_cons]
      rw [balTo_append 0 cur.reverse [c], hcur]
      simp only [balTo, hdelta]
      show (if d + 1 < 0 then none else some (d + 1)) = some (d + 1)
      rw [if_neg (by omega)]
    · split at hmem
      · rename_i hop hcl
        have hop2 : bracketOpen c = false := by simpa using hop
        have hdelta : bracketDelta c = -1 := by simp [bracketDelta, hop2, hcl]
        rw [hdelta] at hcons
        obtain ⟨hge, hrest⟩ := hcons
        have hstep : depthStep d c = d + -1 := by
          simp only [depthStep, hop2, hcl]
          simp only [Bool.false_eq_true, if_false, if_true]
          omega
        rw [hstep] at hmem
        refine ih (d + -1) (c :: cur) ?_ hrest part hmem
        simp only [List.reverse_cons]
        rw [balTo_append 0 cur.reverse [c], hcur]
        simp only [balTo, hdelta]
        show (if d + -1 < 0 then none else some (d + -1)) = some (d + -1)
        rw [if_neg (by omega)]
      · split at hmem
        · rename_i hop hcl hcm
          have hop2 : bracketOpen c = false := by simpa using hop
          have hcl2 : bracketClose c = false := by simpa using hcl
          simp only [Bool.and_eq_true, decide_eq_true_eq] at hcm
          obtain ⟨hc, hdz⟩ := hcm
          have hdelta : bracketDelta c = 0 := bracketDelta_other hop2 hcl2
          rw [hdelta] at hcons
          simp only [List.mem_cons] at hmem
          rcases hmem with rfl | hmem
          · simp [balancedChk, hcur, hdz]
          · refine ih d ([] : List Char) (by simp [balTo, hdz]) ?_ part hmem
            have := hcons.2
            simpa using this
        · rename_i hop hcl hcm
          have hop2 : bracketOpen c = false := by simpa using hop
          have hcl2 : bracketClose c = false := by simpa using hcl
          have hdelta : bracketDelta c = 0 := bracketDelta_other hop2 hcl2
          rw [hdelta] at hcons
          have hd0 : 0 ≤ d := balTo_nonneg hcur le_rfl
          refine ih d (c :: cur) ?_ (by simpa using hcons.2) part hmem
          simp only [List.reverse_cons]
          rw [balTo_append 0 cur.reverse [c], hcur]
          simp only [balTo, hdelta]
          show (if d + 0 < 0 then none else some (d + 0)) = some d
          rw [if_neg (by omega)]
          norm_num


/-- C6: bracket safety of the top-level comma split — for a balanced input
every returned part is itself balanced (no split point falls inside a
bracketed sub-expression), and the splitter's clamped depth counter can
never go negative. -/
theorem comma_split_bracket_safe (s : String) :
    (balancedChk 0 s.data = true →
      ∀ part ∈ splitAtTopLevelCommas s, balancedChk 0 part.data = true) ∧
    (∀ (d : Int) (c : Char), 0 ≤ d → 0 ≤ depthStep d c) := by
  constructor
  · intro hbal part hmem
    simp only [splitAtTopLevelCommas, List.mem_map] at hmem
    obtain ⟨l, hl, rfl⟩ := hmem
    exact splitGo_parts_balanced s.data 0 [] (by simp [balTo]) hbal l hl
  · intro d c hd
    simp only [depthStep]
    split
    · omega
    · split
      · exact le_max_left 0 _
      · exact hd

/-- Witness for C6 at a concrete balanced input. -/
theorem comma_split_bracket_safe_witness :
    balancedChk 0 ("f(a,b)" : String).data = true ∧ 0 ≤ depthStep 0 ')' := by
  constructor
  · exact (comma_split_bracket_safe "f(a,b), c").1 (by decide) "f(a,b)" (by decide)
  · exact (comma_split_bracket_safe "x").2 0 ')' (by decide)

/-- Without a comma in the input the splitter returns a single part. -/
theorem splitGo_no_comma (l : List Char) : ∀ (d : Int) (cur : List Char),
    ¬ (',' ∈ l) → splitGo d cur l = [cur.reverse ++ l] := by
  induction l with
  | nil => intro d cur _; simp [splitGo]
  | cons c rest ih =>
    intro d cur hnc
    have hc : c ≠ ',' := fun h => hnc (h ▸ List.mem_cons_self c rest)
    have hrest : ¬ (',' ∈ rest) := fun h => hnc (List.mem_cons_of_mem c h)
    simp only [splitGo]
    split
    · rw [ih _ _ hrest]; simp
    · split
      · rw [ih _ _ hrest]; simp
      · split
        · rename_i hcm
          simp only [Bool.and_eq_true, decide_eq_true_eq] at hcm
          exact absurd hcm.1 (Ne.symm hc).symm
        · rw [ih _ _ hrest]; simp

/-- A value containing no comma splits into just itself. -/
theorem splitAtTopLevelCommas_no_comma {s : String}
    (h : s.data.contains ',' = false) : splitAtTopLevelCommas s = [s] := by
  have hmem : ¬ (',' ∈ s.data) := by simpa using h
  unfold splitAtTopLevelCommas
  rw [splitGo_no_comma s.data 0 [] hmem]
  rfl

/-- A filtered singleton has at most one element. -/
theorem filter_singleton_length_le {α : Type} (q : α → Bool) (x : α) :
    (List.filter q [x]).length ≤ 1 := by
  cases hq : q x <;> simp [List.filter_cons, hq]

/-- C4: the comma-split pass — an Equation block is replaced by its
top-level comma parts interleaved with literal `", "` text blocks exactly
when the split yields at least two non-empty trimmed parts, every other
block is kept unchanged, and the documented example splits as specified. -/
theorem comma_split_equations_correct :
    (∀ blocks : List ContentBlock,
      splitCommaEquations blocks = blocks.flatMap specCommaSplitBlock) ∧
    splitCommaEquations [ContentBlock.mk ContentType.EQUATION "A=2^6, B=3^6" none] =
      [ContentBlock.mk ContentType.EQUATION "A=2^6" none,
       ContentBlock.mk ContentType.TEXT ", " none,
       ContentBlock.mk ContentType.EQUATION "B=3^6" none] := by
  constructor
  · intro blocks
    induction blocks with
    | nil => rfl
    | cons b rest ih =>
      rw [List.flatMap_cons]
      simp only [splitCommaEquations]
      rw [ih]
      congr 1
      simp only [specCommaSplitBlock]
      by_cases ht : b.type = ContentType.EQUATION
      · by_cases hc : b.value.data.contains ','
        · rw [if_pos (by rw [ht, hc]; simp : (decide (b.type = ContentType.EQUATION) &&
              b.value.data.contains ',') = true)]
          split_ifs with h1 h2 h2
          · rfl
          · exact absurd ⟨ht, h1⟩ h2
          · exact absurd h2.2 h1
          · rfl
        · have hc2 : b.value.data.contains ',' = false := by simpa using hc
          rw [if_neg (by rw [hc2]; simp : ¬ ((decide (b.type = ContentType.EQUATION) &&
              b.value.data.contains ',') = true))]
          rw [if_neg ?_]
          intro hx
          rw [splitAtTopLevelCommas_no_comma hc2] at hx
          have h2 := hx.2
          rw [List.map_cons, List.map_nil] at h2
          have h1 := filter_singleton_length_le
            (fun p : String => decide (p ≠ "")) (pyStripStr b.value)
          omega
      · have ht2 : decide (b.type = ContentType.EQUATION) = false := by simpa using ht
        rw [if_neg (by rw [ht2]; simp), if_neg (fun hx => ht hx.1)]
  · rfl

/-- C1 (failing evaluation): on an ordinary text block the parser does not
degrade gracefully — building the `type_map` dict evaluates
`ContentType.TABLE`, which the enum of `models/exam_document.py` does not
define, so the call raises `AttributeError` instead of returning a block. -/
theorem parse_content_block_attribute_error :
    parseContentBlock (BlockData.mk "text" "hello" []) =
      Except.error PyErr.attributeError := rfl

/-- C9 (failing evaluation): on the documented input the underline pass does
not return the three spans — the first `__않은__` match constructs
`ContentBlock(..., underline=True)`, a keyword the dataclass of
`models/exam_document.py` does not accept, so the call raises `TypeError`. -/
theorem underline_markup_type_error :
    splitUnderlineMarkup ("옳지 __않은__ 것은?" : String).data =
      Except.error PyErr.typeError := rfl

/-- Division by five preserves an integer lower bound scaled by seven
fifths' floor: used for the `int(width * 1.4)` steps. -/
theorem wfloor_ge {w : Int} (h : 800 ≤ w) : 800 ≤ w * 7 / 5 := by
  have h7 : 5600 ≤ w * 7 := by omega
  have := Int.ediv_le_ediv (by norm_num : (0:Int) < 5) h7
  omega

/-- C7: the size estimator always succeeds with a positive size — the
fallback estimator's width is at least the 800 floor and its height is
positive for every script, and the measurement path returns `None` (not an
exception) when the matplotlib collaborator fails, while any size it does
return also respects the floor. -/
theorem estimator_always_positive :
    (∀ s : List Char, 800 ≤ (estimateEquationSize s).1 ∧
      0 < (estimateEquationSize s).2) ∧
    (∀ latex : List Char, measureLatexSize (Except.error ()) latex = none) ∧
    (∀ (f : String → ℚ → Int) (latex : List Char) (w h : Int),
      measureLatexSize (Except.ok f) latex = some (w, h) → 800 ≤ w ∧ 0 < h) := by
  refine ⟨?_, ?_, ?_⟩
  · intro s
    simp only [estimateEquationSize]
    constructor
    · have hbase : 800 ≤ max (drivingHalfUnits s * 325 + 200) 800 :=
        le_max_right _ _
      split
      · split
        · exact wfloor_ge (wfloor_ge hbase)
        · exact wfloor_ge hbase
      · split
        · exact wfloor_ge hbase
        · exact hbase
    · split
      · split
        · split <;> omega
        · split <;> omega
      · split
        · split <;> omega
        · split <;> omega
  · intro latex
    rfl
  · intro f latex w h heq
    simp only [measureLatexSize] at heq
    split at heq
    · rename_i beforeFrac fromBrace _
      simp only [Option.some.injEq, Prod.mk.injEq] at heq
      obtain ⟨hw, hh⟩ := heq
      constructor
      · rw [← hw]; exact le_max_right _ _
      · rw [← hh]
        split <;> omega
    · simp only [Option.some.injEq, Prod.mk.injEq] at heq
      obtain ⟨hw, hh⟩ := heq
      constructor
      · rw [← hw]; exact le_max_right _ _
      · rw [← hh]
        split <;> omega

/-- Witness for C7's measurement clause: a concrete oracle measurement is
floored and positive. -/
theorem estimator_always_positive_witness :
    800 ≤ (900 : Int) ∧ 0 < (1200 : Int) :=
  estimator_always_positive.2.2 (fun _ _ => 900) ("x+1" : String).data 900 1200 (by decide)

/-- The `int(width * 1.4)` step is monotone. -/
theorem wfloor_mono {a b : Int} (h : a ≤ b) : a * 7 / 5 ≤ b * 7 / 5 :=
  Int.ediv_le_ediv (by norm_num) (by omega)

/-- C8: width monotonicity of the fallback estimator — for two fraction
scripts with the same radical flag, a side split with at least the visible
length of the other (as for a numerator extended by visible characters)
estimates at least as wide. -/
theorem estimator_width_monotone (s1 s2 : List Char)
    (hf1 : hasFractionTok s1 = true) (hf2 : hasFractionTok s2 = true)
    (hs : hasSqrtTok s1 = hasSqrtTok s2)
    (hv : drivingHalfUnits s1 ≤ drivingHalfUnits s2) :
    (estimateEquationSize s1).1 ≤ (estimateEquationSize s2).1 := by
  have hw : max (drivingHalfUnits s1 * 325 + 200) 800 ≤
      max (drivingHalfUnits s2 * 325 + 200) 800 :=
    max_le_max (by omega) le_rfl
  simp only [estimateEquationSize, hf1, hf2, hs]
  cases hq : hasSqrtTok s2 <;> simp [hq] <;>
    first
      | exact wfloor_mono hw
      | exact wfloor_mono (wfloor_mono hw)

/-- Witness for C8: the fraction `{ab} over {b}` has a longer numerator than
`{a} over {b}` and estimates at least as wide. -/
theorem estimator_width_monotone_witness :
    (estimateEquationSize ("a over b" : String).data).1 ≤
      (estimateEquationSize ("ab over b" : String).data).1 :=
  estimator_width_monotone _ _ (by decide) (by decide) (by decide) (by decide)

/-- No backslash immediately followed by an ASCII letter occurs anywhere in
the list — i.e. the text holds no command-like token `\\letters`. -/
def noCmdB : List Char → Bool
  | [] => true
  | c :: rest => (if c = '\\' then !(headAlpha rest) else true) && noCmdB rest

/-- The command stripper in command state never emits a letter first. -/
theorem stripGo_true_head : ∀ l : List Char, headAlpha (stripGo true l) = false := by
  intro l
  induction l with
  | nil => rfl
  | cons c rest ih =>
    simp only [stripGo]
    split
    · exact ih
    · split
      · exact ih
      · rename_i h1 h2
        simp only [headAlpha]
        simpa using h1

/-- The command stripper preserves a non-letter head. -/
theorem stripGo_false_head : ∀ l : List Char, headAlpha l = false →
    headAlpha (stripGo false l) = false := by
  intro l h
  cases l with
  | nil => rfl
  | cons c rest =>
    simp only [stripGo]
    split
    · rename_i h1; simp at h1
    · split
      · exact stripGo_true_head rest
      · simpa [headAlpha] using h

/-- The output of the command stripper never contains a command token. -/
theorem noCmd_stripGo : ∀ (l : List Char) (b : Bool), noCmdB (stripGo b l) = true := by
  intro l
  induction l with
  | nil => intro b; rfl
  | cons c rest ih =>
    intro b
    simp only [stripGo]
    split
    · exact ih true
    · split
      · exact ih true
      · rename_i h1 h2
        simp only [noCmdB, Bool.and_eq_true]
        refine ⟨?_, ih false⟩
        split
        · rename_i hc
          have hrest : headAlpha rest = false := by simpa [hc] using h2
          simp [stripGo_false_head rest hrest]
        · rfl

/-- The space collapser preserves a non-letter head (from the non-space
state). -/
theorem collapseGo_false_head : ∀ l : List Char, headAlpha l = false →
    headAlpha (collapseGo false l) = false := by
  intro l h
  cases l with
  | nil => rfl
  | cons c rest =>
    simp only [collapseGo]
    split
    · simp [headAlpha]
    · simpa [headAlpha] using h

/-- The space collapser cannot create a command token. -/
theorem noCmd_collapseGo : ∀ (l : List Char) (b : Bool), noCmdB l = true →
    noCmdB (collapseGo b l) = true := by
  intro l
  induction l with
  | nil => intro b _; rfl
  | cons c rest ih =>
    intro b h
    simp only [noCmdB, Bool.and_eq_true] at h
    obtain ⟨hpair, hrest⟩ := h
    simp only [collapseGo]
    split
    · split
      · exact ih true hrest
      · simp only [noCmdB, Bool.and_eq_true]
        refine ⟨?_, ih true hrest⟩
        split
        · rename_i hsp; exact absurd hsp (by decide)
        · rfl
    · simp only [noCmdB, Bool.and_eq_true]
      refine ⟨?_, ih false hrest⟩
      split
      · rename_i hc2
        rw [if_pos hc2] at hpair
        have hr : headAlpha rest = false := by simpa using hpair
        simp [collapseGo_false_head rest hr]
      · rfl

/-- Dropping a prefix cannot create a command token. -/
theorem noCmd_dropWhile (p : Char → Bool) : ∀ l : List Char, noCmdB l = true →
    noCmdB (l.dropWhile p) = true := by
  intro l
  induction l with
  | nil => intro h; exact h
  | cons c rest ih =>
    intro h
    simp only [noCmdB, Bool.and_eq_true] at h
    rw [List.dropWhile_cons]
    split
    · exact ih h.2
    · simp only [noCmdB, Bool.and_eq_true]
      exact ⟨h.1, h.2⟩

/-- A non-empty trailing-whitespace trim keeps the head character. -/
theorem dropTrailingWs_head : ∀ (l : List Char) (d : Char) (t : List Char),
    dropTrailingWs l = d :: t → l.head? = some d := by
  intro l d t h
  cases l with
  | nil => simp [dropTrailingWs] at h
  | cons c rest =>
    simp only [dropTrailingWs] at h
    revert h
    split
    · split
      · intro h; cases h
      · intro h; cases h; rfl
    · intro h; cases h; rfl

/-- Trimming trailing whitespace cannot create a command token. -/
theorem noCmd_dropTrailingWs : ∀ l : List Char, noCmdB l = true →
    noCmdB (dropTrailingWs l) = true := by
  intro l
  induction l with
  | nil => intro h; exact h
  | cons c rest ih =>
    intro h
    simp only [noCmdB, Bool.and_eq_true] at h
    obtain ⟨hpair, hrest⟩ := h
    simp only [dropTrailingWs]
    cases hdt : dropTrailingWs rest with
    | nil =>
      by_cases hsp : pySpace c = true
      · simp [hsp, noCmdB]
      · simp [hsp, noCmdB, headAlpha]
    | cons d t =>
      show noCmdB (c :: d :: t) = true
      simp only [noCmdB, Bool.and_eq_true]
      have hnc : noCmdB (d :: t) = true := by rw [← hdt]; exact ih hrest
      refine ⟨?_, by simpa [noCmdB] using hnc⟩
      split
      · rename_i hc
        rw [if_pos hc] at hpair
        have hh := dropTrailingWs_head rest d t hdt
        cases rest with
        | nil => simp at hh
        | cons e er =>
          simp only [List.head?_cons, Option.some.injEq] at hh
          subst hh
          simpa [headAlpha] using hpair
      · rfl

/-- Python stripping cannot create a command token. -/
theorem noCmd_pyStrip (l : List Char) (h : noCmdB l = true) :
    noCmdB (pyStrip l) = true :=
  noCmd_dropTrailingWs _ (noCmd_dropWhile _ _ h)

/-- Stage 13's final regex strip leaves no command token, whatever it is
applied to. -/
theorem noCmd_cleanup (s : List Char) : noCmdB (cleanup s) = true :=
  noCmd_stripGo _ false

/-- Any positive-fuel run of the stage pipeline ends in the stage-13
cleanup, so its output carries no command token. -/
theorem noCmd_convertExpr (fuel : Nat) (s : List Char) :
    noCmdB (convertExpr (fuel + 1) s) = true := by
  show noCmdB (if s.isEmpty then [] else _) = true
  split
  · rfl
  · exact noCmd_cleanup _

/-- The conversion tail (expression pipeline plus whitespace normalisation)
leaves no command token. -/
theorem noCmd_convertTail (s : List Char) : noCmdB (convertTail s) = true :=
  noCmd_pyStrip _ (noCmd_collapseGo _ false (noCmd_convertExpr s.length s))

/-- C2: the transpiler is total in this embedding and silently discards
unrecognised commands — for every input string, the returned script contains
no command-like token (backslash followed by a letter), because the final
cleanup stage strips any leftover and the subsequent whitespace
normalisation cannot create one. -/
theorem convert_strips_command_tokens (latex : String) :
    noCmdB (convert latex).data = true := by
  unfold convert
  generalize convertPre latex = s
  exact noCmd_convertTail s

/-- Pairwise check over a table: `chk p q` must hold for every pair with
`p` listed before `q`. -/
def pairwiseChk (chk : (String × String) → (String × String) → Bool) :
    List (String × String) → Bool
  | [] => true
  | p :: rest => rest.all (chk p) && pairwiseChk chk rest

/-- In the given substitution order, no command is a proper prefix of a
command substituted later — the longest-command-first discipline. -/
def noProperPrefixEarlier (l : List (String × String)) : Bool :=
  pairwiseChk (fun p q => !(p.1 != q.1 && p.1.data.isPrefixOf q.1.data)) l

/-- C3: longest-match correctness — transpiling `\varepsilon` yields the
long-form token `varepsilon` (never `epsilon` with a dangling remainder),
and in each of the three sorted substitution tables no command is a proper
prefix of a later one, so substitution proceeds longest-command-first. -/
theorem varepsilon_longest_first :
    convert "\\varepsilon" = "varepsilon" ∧
    noProperPrefixEarlier greekSorted = true ∧
    noProperPrefixEarlier symbolSorted = true ∧
    noProperPrefixEarlier funcSorted = true :=
  ⟨rfl, rfl, rfl, rfl⟩

/-- C5: the literal fraction scenario — transpiling `\frac{1}{2}` returns
exactly `{1} over {2}`. -/
theorem frac_literal_scenario :
    convert "\\frac\x7b1\x7d\x7b2\x7d" = "\x7b1\x7d over \x7b2\x7d" := rfl

end ExamPaper
